import Mathlib

/-!
Verification of wrex, a command wrapper that logs every output line of a child
process to syslog.

A shallow embedding of `src/wrex.cpp` (class `CommandLogger`) and the
properties of its record formatter, stream drainer and process supervisor.

Conventions of the embedding:

* a `std::string` or `char` buffer is a list of bytes (`Fin 256`);
* a `std::ostringstream` is an explicit record holding the buffer and the
  formatting state (`width`, `fill`, base) that the manipulators change;
* everything the operating system decides (pipe contents, results of
  `pipe`, `fork`, `waitpid`, `time`, the thread schedule) is an input.
-/

set_option maxRecDepth 100000

namespace Wrex

/-! ## Bytes and strings -/

/-- One `char` of storage. -/
abbrev Byte := Fin 256

/-- A `std::string`: a sequence of bytes, NUL bytes allowed. -/
abbrev Str := List Byte

/-- The bytes of a string literal of the source (all of them ASCII). -/
def lit (s : String) : Str := s.toList.map (fun c => Fin.ofNat c.toNat)

/-- The value of a `char` holding byte `c` once promoted to `int`, on a
platform where plain `char` is signed (x86-64 Linux). -/
def char_value (c : Byte) : Int := if c.val < 128 then (c.val : Int) else (c.val : Int) - 256

/-- The value of `(unsigned char)c` for a `char` holding byte `c`. -/
def unsigned_char (c : Byte) : Byte := c

/-- The C string stored in a buffer: the bytes before the first NUL. This is what
`std::string(const char*)`, `operator<<(const char*)` and `printf("%s")` read. -/
def c_str (buf : Str) : Str := buf.takeWhile (fun b => b != 0)

/-! ## Output string streams -/

/-- The state of a `std::ostringstream` that the program can observe. -/
structure OStream where
  /-- contents, as returned by `str()` -/
  buf : Str
  /-- field width for the next formatted insertion (`std::setw`), reset by it -/
  width : Nat
  /-- fill character (`std::setfill`), sticky -/
  fill : Byte
  /-- whether `std::hex` was applied (sticky); affects integer insertions only -/
  hex : Bool

/-- A freshly constructed stream: empty, width 0, fill `' '`, decimal. -/
def OStream.new : OStream := { buf := [], width := 0, fill := 32, hex := false }

/-- Padding of a field of `n` characters: `width - n` copies of the fill character. -/
def OStream.padding (os : OStream) (n : Nat) : Str := List.replicate (os.width - n) os.fill

/-- Formatted insertion of a character sequence; right-adjusted (the default),
so the padding comes first. The width is reset to 0. -/
def OStream.put (os : OStream) (field : Str) : OStream :=
  { os with buf := os.buf ++ os.padding field.length ++ field, width := 0 }

/-- Insertion `os << "literal"` and `os << std::string`. -/
def OStream.put_str (os : OStream) (s : Str) : OStream := os.put s

/-- Insertion `os << c` for `char` and for `unsigned char`: the character itself is
inserted (never its numeric value), padded to the field width. -/
def OStream.put_char (os : OStream) (c : Byte) : OStream := os.put [c]

/-- Manipulator `os << std::hex`. -/
def OStream.set_hex (os : OStream) : OStream := { os with hex := true }

/-- Manipulator `os << std::setw(n)`. -/
def OStream.setw (os : OStream) (n : Nat) : OStream := { os with width := n }

/-- Manipulator `os << std::setfill(c)`. -/
def OStream.setfill (os : OStream) (c : Byte) : OStream := { os with fill := c }

/-- Digits of a natural number in the given base, as ASCII bytes. -/
def digits (base n : Nat) : Str := (Nat.toDigits base n).map (fun c => Fin.ofNat c.toNat)

/-- Decimal text of a signed integer, as `operator<<` prints `int` and `long`. -/
def decimal (i : Int) : Str :=
  if i < 0 then (45 : Byte) :: digits 10 i.natAbs else digits 10 i.natAbs

/-- Insertion `os << i` for a signed integer of `bits` bits: decimal by default, and after
`std::hex` the hexadecimal digits of the value converted to unsigned. -/
def OStream.put_integer (os : OStream) (bits : Nat) (i : Int) : OStream :=
  os.put (if os.hex then digits 16 (i % (2 ^ bits : Nat)).toNat else decimal i)

/-- Insertion `os << i` for `int` and `pid_t`. -/
def OStream.put_int (os : OStream) (i : Int) : OStream := os.put_integer 32 i

/-- Insertion `os << t` for `time_t` (`long`). -/
def OStream.put_long (os : OStream) (i : Int) : OStream := os.put_integer 64 i

/-! ## Record formatter -/

/-- One iteration of the loop of `escape_json_string`: the `switch (c)`. -/
def escape_json_char (escaped : OStream) (c : Byte) : OStream :=
  if c = 34 then escaped.put_str (lit "\\\"")
  else if c = 92 then escaped.put_str (lit "\\\\")
  else if c = 8 then escaped.put_str (lit "\\b")
  else if c = 12 then escaped.put_str (lit "\\f")
  else if c = 10 then escaped.put_str (lit "\\n")
  else if c = 13 then escaped.put_str (lit "\\r")
  else if c = 9 then escaped.put_str (lit "\\t")
  else if char_value c < 32 ∨ char_value c > 126 then
    ((((escaped.put_str (lit "\\u")).set_hex).setw 4).setfill 48).put_char (unsigned_char c)
  else escaped.put_char c

/-- Source function `CommandLogger::escape_json_string`: the loop over the input
applied to a fresh stream, and `escaped.str()`. -/
def escape_json_string (input : Str) : Str :=
  (input.foldl escape_json_char OStream.new).buf

/-- The data members of `CommandLogger`, set once by `initialize_metadata`. -/
structure CommandLogger where
  current_user : Str
  tty_name : Str
  hostname : Str

/-- One call of `log_line`: the seven values that its `json << ...` chain prints.
`user`, `tty` and `host` are the members of the logger, `message`, `fd` and `pid`
the arguments `line`, `fd_type` and `child_pid`, `timestamp` is `time(nullptr)`. -/
structure LogRecord where
  user : Str
  pid : Int
  tty : Str
  fd : Str
  host : Str
  message : Str
  timestamp : Int
deriving DecidableEq

/-- The `std::ostringstream json` of `log_line` after the whole `<<` chain. -/
def LogRecord.stream (r : LogRecord) : OStream :=
  ((((((((((((((((((((((OStream.new.put_str (lit "\x7b")).put_str (lit "\"user\":\"")).put_str
    (escape_json_string r.user)).put_str (lit "\",")).put_str (lit "\"pid\":")).put_int
    r.pid).put_str (lit ",")).put_str (lit "\"tty\":\"")).put_str
    (escape_json_string r.tty)).put_str (lit "\",")).put_str (lit "\"fd\":\"")).put_str
    r.fd).put_str (lit "\",")).put_str (lit "\"host\":\"")).put_str
    (escape_json_string r.host)).put_str (lit "\",")).put_str (lit "\"message\":\"")).put_str
    (escape_json_string r.message)).put_str (lit "\",")).put_str (lit "\"timestamp\":")).put_long
    r.timestamp).put_str (lit "\x7d"))

/-- The serialized record, `json.str()`. -/
def LogRecord.json (r : LogRecord) : Str := r.stream.buf

/-- The text that reaches the log: `syslog(LOG_INFO, "%s", json.str().c_str())`. -/
def LogRecord.syslog_text (r : LogRecord) : Str := c_str r.json

/-- Source function `CommandLogger::log_line`, with the value of `time(nullptr)` as `now`: the
record that is serialized and handed to `syslog`. -/
def log_line (self : CommandLogger) (line fd_type : Str) (child_pid now : Int) : LogRecord :=
  { user := self.current_user, pid := child_pid, tty := self.tty_name, fd := fd_type,
    host := self.hostname, message := line, timestamp := now }

/-! ## Stream drainer -/

/-- Library call `getline(&line, &len, fp)` on a stream whose remaining content is `fp`: `none`
at end of stream (the call returns -1), otherwise the bytes up to and including
the first newline (or up to the end when there is none) and the rest of the stream. -/
def getline : Str → Option (Str × Str)
  | [] => none
  | b :: fp =>
    if b = 10 then some ([b], fp)
    else match getline fp with
      | none => some ([b], [])
      | some (line, rest) => some (b :: line, rest)

/-- Removal of the trailing newline if present: the buffer after
`if (read > 0 && line[read - 1] == '\n') line[read - 1] = '\0';`, up to `read`. -/
def strip_newline (line : Str) : Str :=
  if line.length > 0 ∧ line.getLast? = some 10 then line.dropLast else line

/-- What one run of `read_pipe` does: the records it logs, in order, and the pieces
it inserts into `tty`, in order. -/
structure Drained where
  syslog : List LogRecord
  tty : List Str
deriving DecidableEq

/-- The `while` loop of `read_pipe` on a stream with remaining content `fp`;
`time k` is the clock at the `k`-th record of this reader. Both
`std::string(line)` and `tty << line` read the buffer as a C string. -/
def read_pipe_loop (self : CommandLogger) (fd_type : Str) (child_pid : Int) (time : Nat → Int)
    (k : Nat) (fp : Str) : Drained :=
  match h : getline fp with
  | none => { syslog := [], tty := [] }
  | some (line, rest) =>
    let d := read_pipe_loop self fd_type child_pid time (k + 1) rest
    { syslog := log_line self (c_str (strip_newline line)) fd_type child_pid (time k) :: d.syslog,
      tty := c_str (strip_newline line) :: lit "\n" :: d.tty }
termination_by fp.length
decreasing_by
  have consumes : ∀ (fp line rest : Str), getline fp = some (line, rest) →
      rest.length < fp.length := by
    intro fp
    induction fp with
    | nil => intro line rest h; simp [getline] at h
    | cons b fp ih =>
      intro line rest h
      rw [getline] at h
      split_ifs at h with hb
      · simp only [Option.some.injEq, Prod.mk.injEq] at h
        simp [← h.2]
      · split at h
        · simp only [Option.some.injEq, Prod.mk.injEq] at h
          simp [← h.2]
        · rename_i l r hg
          simp only [Option.some.injEq, Prod.mk.injEq] at h
          have := ih l r hg
          rw [← h.2]
          simp only [List.length_cons]
          omega
  exact consumes fp line rest h

/-- The effects of one reader thread. -/
structure ReaderOutput where
  syslog : List LogRecord
  /-- insertions into `std::cout` -/
  cout : List Str
  /-- insertions into `std::cerr`, and lines of `perror` -/
  cerr : List Str
deriving DecidableEq

/-- Library call `perror(tag)`: the tag, a colon and the text of `errno`. -/
def perror (tag strerror : Str) : Str := tag ++ lit ": " ++ strerror ++ lit "\n"

/-- Source function `CommandLogger::read_pipe`. `fp` is the result of `fdopen`: `none` when it
fails, otherwise everything the stream delivers before `getline` returns -1. -/
def read_pipe (self : CommandLogger) (fp : Option Str) (fd_type : Str) (child_pid : Int)
    (time : Nat → Int) (strerror : Str) : ReaderOutput :=
  match fp with
  | none => { syslog := [], cout := [], cerr := [perror (lit "fdopen") strerror] }
  | some content =>
    let d := read_pipe_loop self fd_type child_pid time 0 content
    if fd_type = lit "stdout" then { syslog := d.syslog, cout := d.tty, cerr := [] }
    else { syslog := d.syslog, cout := [], cerr := d.tty }

/-! ## Process supervisor -/

/-- Modelled from the spec: the macro `WIFEXITED` of `<sys/wait.h>` is not under
src/. The spec's wait status 32512 for exit code 127 is the Linux encoding, where
the macro is `((status) & 0x7f) == 0`. -/
def WIFEXITED (status : Int) : Bool := status % 128 == 0

/-- Modelled from the spec: the macro `WEXITSTATUS` of `<sys/wait.h>` is not under
src/. With the Linux encoding it is `((status) & 0xff00) >> 8`. -/
def WEXITSTATUS (status : Int) : Int := (status % 65536) / 256

/-- How a child process ends. -/
inductive Termination where
  /-- normal exit: `exit(code)` or return from `main` -/
  | exited (code : Int)
  /-- killed by signal `sig`, with or without a core dump -/
  | signaled (sig : Nat) (core : Bool)
deriving DecidableEq

/-- Modelled from the spec: the wait status that `waitpid` stores for a terminated
child is produced by the kernel, not by code under src/. Linux encoding: the low
eight bits of the exit code in bits 8-15 for a normal exit, the signal number in
bits 0-6 and the core flag in bit 7 for a death by signal. -/
def wait_status : Termination → Int
  | .exited code => (code % 256) * 256
  | .signaled sig core => (sig : Int) + (if core then 128 else 0)

/-- Signals that can terminate a process are numbered 1 to 64 on Linux. -/
def Termination.valid : Termination → Prop
  | .exited _ => True
  | .signaled sig _ => 1 ≤ sig ∧ sig ≤ 64

/-- One way of interleaving two sequences of atomic steps: `true` lets the first
thread take its next step, `false` the second; a thread that has finished leaves
the other one running, and so does the end of the schedule. -/
def merge {α : Type} : List Bool → List α → List α → List α
  | [], xs, ys => xs ++ ys
  | _ :: _, [], ys => ys
  | _ :: _, xs, [] => xs
  | true :: sched, x :: xs, ys => x :: merge sched xs ys
  | false :: sched, xs, y :: ys => y :: merge sched xs ys

/-- Everything the operating system decides during one `execute_command`. -/
structure Env where
  /-- whether `pipe(stdout_pipe) != -1` -/
  pipe_stdout : Bool
  /-- whether `pipe(stderr_pipe) != -1` -/
  pipe_stderr : Bool
  /-- return value of `fork()` -/
  fork : Int
  /-- in the child: whether `execvp` replaces the process image -/
  execvp : Bool
  /-- result of `fdopen(stdout_pipe[0])` and the bytes that pipe delivers -/
  stdout_fp : Option Str
  /-- result of `fdopen(stderr_pipe[0])` and the bytes that pipe delivers -/
  stderr_fp : Option Str
  /-- the status stored by `waitpid` -/
  status : Int
  /-- value of `time(nullptr)` at the supervisor's calls of `log_line` -/
  time_main : Nat → Int
  /-- value of `time(nullptr)` at the calls of the stdout reader -/
  time_stdout : Nat → Int
  /-- value of `time(nullptr)` at the calls of the stderr reader -/
  time_stderr : Nat → Int
  /-- order in which the two readers reach `syslog` -/
  sched_syslog : List Bool
  /-- order in which the two readers write to standard output -/
  sched_cout : List Bool
  /-- order in which the two readers write to standard error -/
  sched_cerr : List Bool
  /-- text of `errno` printed by `perror` -/
  strerror : Str

/-- The observable effects of the process. -/
structure World where
  /-- records handed to `syslog`, in order -/
  syslog : List LogRecord
  /-- bytes written to standard output -/
  cout : Str
  /-- bytes written to standard error -/
  cerr : Str
  /-- pipes created by `pipe` -/
  pipes : Nat
  /-- child processes created by `fork` -/
  children : Nat
deriving DecidableEq

/-- How a call of `execute_command` ends in the process that runs it. -/
inductive Outcome where
  /-- the function returns `rc` -/
  | returned (rc : Int) (w : World)
  /-- forked child: `execvp(file, argv)` replaced the process image -/
  | exec (file : Str) (argv : List Str) (w : World)
  /-- forked child: `exit(code)` -/
  | exited (code : Int) (w : World)
deriving DecidableEq

/-- The message of the first record: `ss << "CMD: "; for (arg : args) ss << ' ' << arg;`. -/
def cmd_message (args : List Str) : Str :=
  (args.foldl (fun (ss : OStream) arg => (ss.put_char 32).put_str arg)
    (OStream.new.put_str (lit "CMD: "))).buf

/-- The message of the last record: `ss << "RC: " << status`. -/
def rc_message (status : Int) : Str :=
  ((OStream.new.put_str (lit "RC: ")).put_int status).buf

/-- Source function `CommandLogger::execute_command`. -/
def execute_command (self : CommandLogger) (env : Env) (args : List Str) : Outcome :=
  if args.isEmpty then
    .returned 1 { syslog := [], cout := [], cerr := lit "No command specified\n",
                  pipes := 0, children := 0 }
  else if !env.pipe_stdout then
    .returned 1 { syslog := [], cout := [], cerr := perror (lit "pipe") env.strerror,
                  pipes := 0, children := 0 }
  else if !env.pipe_stderr then
    .returned 1 { syslog := [], cout := [], cerr := perror (lit "pipe") env.strerror,
                  pipes := 1, children := 0 }
  else if env.fork = -1 then
    .returned 1 { syslog := [], cout := [], cerr := perror (lit "fork") env.strerror,
                  pipes := 2, children := 0 }
  else if env.fork = 0 then
    let c_args := args.map c_str
    if env.execvp then
      .exec (c_args.headD []) c_args { syslog := [], cout := [], cerr := [], pipes := 2, children := 0 }
    else
      .exited 127 { syslog := [], cout := [], cerr := perror (lit "execvp") env.strerror,
                    pipes := 2, children := 0 }
  else
    let child_pid := env.fork
    let first := log_line self (cmd_message args) (lit "meta") child_pid (env.time_main 0)
    let stdout_reader :=
      read_pipe self env.stdout_fp (lit "stdout") child_pid env.time_stdout env.strerror
    let stderr_reader :=
      read_pipe self env.stderr_fp (lit "stderr") child_pid env.time_stderr env.strerror
    let last := log_line self (rc_message env.status) (lit "meta") child_pid (env.time_main 1)
    .returned (if WIFEXITED env.status then WEXITSTATUS env.status else 1)
      { syslog := first :: merge env.sched_syslog stdout_reader.syslog stderr_reader.syslog
                    ++ [last],
        cout := (merge env.sched_cout stdout_reader.cout stderr_reader.cout).flatten,
        cerr := (merge env.sched_cerr stdout_reader.cerr stderr_reader.cerr).flatten,
        pipes := 2, children := 1 }

/-! ## Auxiliary definitions used in the statements -/

/-- The bytes that one character of the input adds to `escaped`. -/
def escape_json_byte (c : Byte) : Str := (escape_json_char OStream.new c).buf

/-- The input byte that a two-byte escape `\e` stands for. -/
def unescape_char (e : Byte) : Byte :=
  if e = 98 then 8 else if e = 102 then 12 else if e = 110 then 10
  else if e = 114 then 13 else if e = 116 then 9 else e

/-- Reads one escape token off the front of an escaped string: the input byte
it stands for and the rest of the string. -/
def decode_first : Str → Option (Byte × Str)
  | [] => none
  | c :: out =>
    if c ≠ 92 then some (c, out)
    else match out with
      | [] => none
      | e :: out =>
        if e ≠ 117 then some (unescape_char e, out)
        else match out with
          | _ :: _ :: _ :: x :: out => some (x, out)
          | _ => none

/-- The lines that `read_pipe` sees in a stream made of the newline-terminated
`lines` followed by `tail`, the data after the last newline. -/
def lines_seen (lines : List Str) (tail : Str) : List Str :=
  if tail = [] then lines else lines ++ [tail]

/-- The stream that a child produces by writing each of `lines` followed by a
newline, and then `tail`. -/
def stream_of (lines : List Str) (tail : Str) : Str :=
  lines.flatMap (fun l => l ++ lit "\n") ++ tail

/-- All ways of interleaving two sequences, each keeping its own order. -/
inductive Interleaving {α : Type} : List α → List α → List α → Prop where
  | nil : Interleaving [] [] []
  | left (x : α) {xs ys zs : List α} : Interleaving xs ys zs → Interleaving (x :: xs) ys (x :: zs)
  | right (y : α) {xs ys zs : List α} : Interleaving xs ys zs → Interleaving xs (y :: ys) (y :: zs)

/-- A lowercase hexadecimal digit. -/
def hex_digit (n : Nat) : Byte := if n < 10 then Fin.ofNat (48 + n) else Fin.ofNat (87 + n)

/-- The escape of one byte as the specification words it: the named two-character
escapes, `\u` and four hexadecimal digits of the byte value for every other byte
outside [32,126], the byte itself otherwise. -/
def escape_json_byte_spec (c : Byte) : Str :=
  if c = 34 then lit "\\\""
  else if c = 92 then lit "\\\\"
  else if c = 8 then lit "\\b"
  else if c = 12 then lit "\\f"
  else if c = 10 then lit "\\n"
  else if c = 13 then lit "\\r"
  else if c = 9 then lit "\\t"
  else if c.val < 32 ∨ 126 < c.val then
    lit "\\u" ++ [48, 48, hex_digit (c.val / 16), hex_digit (c.val % 16)]
  else [c]

/-- The escaping rule of the specification, byte by byte in input order. -/
def escape_json_string_spec (input : Str) : Str := input.flatMap escape_json_byte_spec

/-- The exit code the supervisor is specified to return for a terminated child:
the child's own exit code after a normal exit, the fallback 1 otherwise. -/
def Termination.exit_code : Termination → Int
  | .exited code => code % 256
  | .signaled _ _ => 1

/-- A logger identity used in the examples. -/
def demo_logger : CommandLogger :=
  { current_user := lit "alice", tty_name := lit "/dev/pts/0", hostname := lit "box" }

/-- An environment used in the examples: both pipes and the fork succeed, the
child has pid 4242, prints `a` and `b` on standard output and ends with the
given wait status. -/
def demo_env (status : Int) : Env :=
  { pipe_stdout := true, pipe_stderr := true, fork := 4242, execvp := true,
    stdout_fp := some (lit "a\nb\n"), stderr_fp := some [], status := status,
    time_main := fun _ => 1700000000, time_stdout := fun _ => 1700000000,
    time_stderr := fun _ => 1700000000, sched_syslog := [], sched_cout := [],
    sched_cerr := [], strerror := [] }

/-! ## Facts about the escape loop -/

/-- The range test `c < 32 || c > 126` gives the same answer whether plain `char`
is signed or unsigned. -/
theorem char_value_range : ∀ c : Byte,
    (char_value c < 32 ∨ char_value c > 126) ↔ (c.val < 32 ∨ 126 < c.val) := by
  decide

/-! ## Facts about output streams -/

theorem OStream.put_buf (os : OStream) (field : Str) (h : os.width = 0) :
    (os.put field).buf = os.buf ++ field := by
  simp [OStream.put, OStream.padding, h]

theorem OStream.put_width (os : OStream) (field : Str) : (os.put field).width = 0 := rfl

theorem escape_json_byte_eq : ∀ c : Byte, escape_json_byte c =
    if c = 34 then [92, 34] else if c = 92 then [92, 92] else if c = 8 then [92, 98]
    else if c = 12 then [92, 102] else if c = 10 then [92, 110] else if c = 13 then [92, 114]
    else if c = 9 then [92, 116]
    else if c.val < 32 ∨ 126 < c.val then [92, 117, 48, 48, 48, c] else [c] := by
  decide

theorem escape_json_char_buf (os : OStream) (c : Byte) (h : os.width = 0) :
    (escape_json_char os c).buf = os.buf ++ escape_json_byte c := by
  unfold escape_json_byte escape_json_char
  split_ifs <;>
    simp [OStream.put_str, OStream.put_char, OStream.put, OStream.padding, OStream.set_hex,
      OStream.setw, OStream.setfill, OStream.new, h]

theorem escape_json_char_width (os : OStream) (c : Byte) : (escape_json_char os c).width = 0 := by
  unfold escape_json_char
  split_ifs <;> rfl

theorem escape_json_fold_buf (input : Str) (os : OStream) (h : os.width = 0) :
    (input.foldl escape_json_char os).buf = os.buf ++ input.flatMap escape_json_byte := by
  induction input generalizing os with
  | nil => simp
  | cons c cs ih =>
    rw [List.foldl_cons, ih _ (escape_json_char_width os c), escape_json_char_buf os c h]
    simp [List.flatMap_cons]

/-- Closed form of `escape_json_string`: the input bytes are escaped one by one. -/
theorem escape_json_string_eq (input : Str) :
    escape_json_string input = input.flatMap escape_json_byte := by
  unfold escape_json_string
  rw [escape_json_fold_buf input OStream.new rfl]
  rfl

/-! ## The escape tokens are uniquely decodable -/

/-- The three shapes of an escape token. -/
theorem escape_json_byte_shape : ∀ a : Byte,
    (escape_json_byte a = [a] ∧ a ≠ 92) ∨
    (escape_json_byte a = [92, (escape_json_byte a).getD 1 0] ∧
      (escape_json_byte a).getD 1 0 ≠ 117 ∧ unescape_char ((escape_json_byte a).getD 1 0) = a) ∨
    escape_json_byte a = [92, 117, 48, 48, 48, a] := by
  decide

theorem decode_first_escape (a : Byte) (x : Str) :
    decode_first (escape_json_byte a ++ x) = some (a, x) := by
  rcases escape_json_byte_shape a with ⟨h, hne⟩ | ⟨h, hne, hu⟩ | h
  · rw [h]
    simp [decode_first, hne]
  · generalize (escape_json_byte a).getD 1 0 = e at h hne hu
    rw [h]
    simp [decode_first, hne, hu]
  · rw [h]
    simp [decode_first]

/-- No escape token is a prefix of another one followed by anything. -/
theorem escape_json_byte_cancel (a b : Byte) (x y : Str)
    (h : escape_json_byte a ++ x = escape_json_byte b ++ y) : a = b ∧ x = y := by
  have ha := decode_first_escape a x
  rw [h, decode_first_escape b y] at ha
  simp only [Option.some.injEq, Prod.mk.injEq] at ha
  exact ⟨ha.1.symm, ha.2.symm⟩

theorem escape_json_byte_ne_nil (a : Byte) : escape_json_byte a ≠ [] := by
  rcases escape_json_byte_shape a with ⟨h, _⟩ | ⟨h, _⟩ | h <;> rw [h] <;> simp

theorem flatMap_escape_injective (s t : Str)
    (h : s.flatMap escape_json_byte = t.flatMap escape_json_byte) : s = t := by
  induction s generalizing t with
  | nil =>
    cases t with
    | nil => rfl
    | cons b t =>
      exfalso
      simp only [List.flatMap_nil, List.flatMap_cons] at h
      exact escape_json_byte_ne_nil b (List.append_eq_nil.mp h.symm).1
  | cons a s ih =>
    cases t with
    | nil =>
      exfalso
      simp only [List.flatMap_nil, List.flatMap_cons] at h
      exact escape_json_byte_ne_nil a (List.append_eq_nil.mp h).1
    | cons b t =>
      simp only [List.flatMap_cons] at h
      obtain ⟨hab, hrest⟩ := escape_json_byte_cancel a b _ _ h
      rw [hab, ih t hrest]

/-! ## Facts about the stream drainer -/

theorem c_str_of_no_nul (buf : Str) (h : (0 : Byte) ∉ buf) : c_str buf = buf := by
  unfold c_str
  rw [List.takeWhile_eq_self_iff]
  intro b hb
  have : b ≠ 0 := fun h0 => h (h0 ▸ hb)
  simpa using this

theorem c_str_no_nul (buf : Str) : (0 : Byte) ∉ c_str buf := by
  unfold c_str
  intro h
  have := List.mem_takeWhile_imp h
  simp at this

/-- A line that ends in a newline is returned whole, newline included. -/
theorem getline_terminated (l rest : Str) (h : (10 : Byte) ∉ l) :
    getline (l ++ 10 :: rest) = some (l ++ [10], rest) := by
  induction l with
  | nil => simp [getline]
  | cons b l ih =>
    have hb : b ≠ 10 := fun hb => h (hb ▸ List.mem_cons_self _ _)
    have hl : (10 : Byte) ∉ l := fun hl => h (List.mem_cons_of_mem _ hl)
    simp [getline, hb, ih hl]

/-- Data after the last newline is returned as a final line without a newline. -/
theorem getline_unterminated (l : Str) (h : (10 : Byte) ∉ l) (hne : l ≠ []) :
    getline l = some (l, []) := by
  induction l with
  | nil => exact absurd rfl hne
  | cons b l ih =>
    have hb : b ≠ 10 := fun hb => h (hb ▸ List.mem_cons_self _ _)
    have hl : (10 : Byte) ∉ l := fun hl => h (List.mem_cons_of_mem _ hl)
    cases l with
    | nil => simp [getline, hb]
    | cons c l => rw [getline, if_neg hb, ih hl (List.cons_ne_nil _ _)]

/-- The two ways in which `getline` returns a line. -/
theorem getline_spec (fp line rest : Str) (h : getline fp = some (line, rest)) :
    (∃ l, (10 : Byte) ∉ l ∧ line = l ++ [10] ∧ fp = l ++ 10 :: rest) ∨
    ((10 : Byte) ∉ line ∧ line ≠ [] ∧ rest = [] ∧ fp = line) := by
  induction fp generalizing line rest with
  | nil => simp [getline] at h
  | cons b fp ih =>
    rw [getline] at h
    split_ifs at h with hb
    · simp only [Option.some.injEq, Prod.mk.injEq] at h
      left
      exact ⟨[], by simp, by simp [← h.1, hb], by simp [← h.2, hb]⟩
    · split at h
      · rename_i hg
        simp only [Option.some.injEq, Prod.mk.injEq] at h
        right
        have hfp : fp = [] := by
          cases fp with
          | nil => rfl
          | cons c fp =>
            rw [getline] at hg
            split_ifs at hg
            split at hg <;> simp at hg
        refine ⟨?_, ?_, h.2.symm, ?_⟩
        · rw [← h.1]
          simpa using fun h10 => hb h10.symm
        · rw [← h.1]
          simp
        · rw [← h.1, hfp]
      · rename_i l r hg
        simp only [Option.some.injEq, Prod.mk.injEq] at h
        rcases ih l r hg with ⟨l0, hl0, hline, hfp⟩ | ⟨hl, hne, hr, hfp⟩
        · left
          refine ⟨b :: l0, ?_, ?_, ?_⟩
          · simp only [List.mem_cons, not_or]
            exact ⟨fun h10 => hb h10.symm, hl0⟩
          · rw [← h.1, hline]
            rfl
          · rw [hfp, ← h.2]
            rfl
        · right
          refine ⟨?_, ?_, ?_, ?_⟩
          · rw [← h.1]
            simp only [List.mem_cons, not_or]
            exact ⟨fun h10 => hb h10.symm, hl⟩
          · rw [← h.1]
            simp
          · rw [← h.2, hr]
          · rw [← h.1, hfp]

/-- A successful `getline` consumes at least one byte. -/
theorem getline_rest_length (fp line rest : Str) (h : getline fp = some (line, rest)) :
    rest.length < fp.length := by
  rcases getline_spec fp line rest h with ⟨l, _, _, hfp⟩ | ⟨_, hne, hr, hfp⟩
  · rw [hfp]
    simp
    omega
  · rw [hr, hfp]
    exact List.length_pos.mpr hne

theorem strip_newline_terminated (l : Str) : strip_newline (l ++ [10]) = l := by
  simp [strip_newline]

theorem strip_newline_unterminated (l : Str) (h : (10 : Byte) ∉ l) : strip_newline l = l := by
  unfold strip_newline
  split_ifs with hc
  · exfalso
    exact h (List.mem_of_getLast?_eq_some hc.2)
  · rfl

theorem read_pipe_loop_eof (self : CommandLogger) (fd_type : Str) (child_pid : Int)
    (time : Nat → Int) (k : Nat) (fp : Str) (h : getline fp = none) :
    read_pipe_loop self fd_type child_pid time k fp = { syslog := [], tty := [] } := by
  rw [read_pipe_loop]
  split
  · rfl
  · rename_i heq
    rw [h] at heq
    cases heq

theorem read_pipe_loop_line (self : CommandLogger) (fd_type : Str) (child_pid : Int)
    (time : Nat → Int) (k : Nat) (fp line rest : Str) (h : getline fp = some (line, rest)) :
    read_pipe_loop self fd_type child_pid time k fp =
      { syslog := log_line self (c_str (strip_newline line)) fd_type child_pid (time k) ::
          (read_pipe_loop self fd_type child_pid time (k + 1) rest).syslog,
        tty := c_str (strip_newline line) :: lit "\n" ::
          (read_pipe_loop self fd_type child_pid time (k + 1) rest).tty } := by
  rw [read_pipe_loop]
  split
  · rename_i heq
    rw [h] at heq
    cases heq
  · rename_i l r heq
    rw [h] at heq
    simp only [Option.some.injEq, Prod.mk.injEq] at heq
    rw [← heq.1, ← heq.2]

theorem lit_newline : lit "\n" = [10] := by decide

/-- The loop of `read_pipe` handles every line of the stream once and in order:
one record and one echoed line each, both holding the line as a C string. -/
theorem read_pipe_loop_stream (self : CommandLogger) (fd_type : Str) (child_pid : Int)
    (time : Nat → Int) (lines : List Str) (tail : Str)
    (hl : ∀ l ∈ lines, (10 : Byte) ∉ l) (ht : (10 : Byte) ∉ tail) (k : Nat) :
    read_pipe_loop self fd_type child_pid time k (stream_of lines tail) =
      { syslog := ((lines_seen lines tail).enumFrom k).map
          (fun p => log_line self (c_str p.2) fd_type child_pid (time p.1)),
        tty := (lines_seen lines tail).flatMap (fun l => [c_str l, lit "\n"]) } := by
  induction lines generalizing k with
  | nil =>
    by_cases hte : tail = []
    · subst hte
      rw [read_pipe_loop_eof _ _ _ _ _ _ (by simp [stream_of, getline])]
      simp [lines_seen]
    · have hs : stream_of [] tail = tail := by simp [stream_of]
      rw [hs, read_pipe_loop_line _ _ _ _ _ _ _ _ (getline_unterminated tail ht hte),
        read_pipe_loop_eof _ _ _ _ _ _ (by simp [getline]), strip_newline_unterminated tail ht]
      simp [lines_seen, hte]
  | cons l lines ih =>
    have hl0 : (10 : Byte) ∉ l := hl l (List.mem_cons_self _ _)
    have hls : ∀ l ∈ lines, (10 : Byte) ∉ l := fun x hx => hl x (List.mem_cons_of_mem _ hx)
    have hs : stream_of (l :: lines) tail = l ++ 10 :: stream_of lines tail := by
      simp [stream_of, lit_newline]
    rw [hs, read_pipe_loop_line _ _ _ _ _ _ _ _ (getline_terminated l _ hl0), ih hls (k + 1),
      strip_newline_terminated]
    by_cases hte : tail = [] <;> simp [lines_seen, hte, List.enumFrom_cons]

/-- The number of lines `read_pipe` sees: one per newline, and one more for data
after the last newline. -/
theorem read_pipe_loop_count (self : CommandLogger) (fd_type : Str) (child_pid : Int)
    (time : Nat → Int) (fp : Str) (k : Nat) :
    (read_pipe_loop self fd_type child_pid time k fp).syslog.length =
      fp.count 10 + (if fp ≠ [] ∧ fp.getLast? ≠ some 10 then 1 else 0) := by
  generalize h : fp.length = n
  induction n using Nat.strong_induction_on generalizing fp k with
  | _ n ih =>
    cases hg : getline fp with
    | none =>
      have hfp : fp = [] := by
        cases fp with
        | nil => rfl
        | cons b fp =>
          rw [getline] at hg
          split_ifs at hg
          split at hg <;> simp at hg
      subst hfp
      rw [read_pipe_loop_eof _ _ _ _ _ _ hg]
      simp
    | some p =>
      obtain ⟨line, rest⟩ := p
      rw [read_pipe_loop_line _ _ _ _ _ _ _ _ hg]
      have hlt := getline_rest_length fp line rest hg
      have hrec := ih rest.length (h ▸ hlt) rest (k + 1) rfl
      simp only [List.length_cons, hrec]
      rcases getline_spec fp line rest hg with ⟨l, hl, _, hfp⟩ | ⟨hl, hne, hr, hfp⟩
      · have hc : l.count 10 = 0 := List.count_eq_zero.mpr hl
        by_cases hre : rest = []
        · subst hre
          simp [hfp, List.count_append, hc]
        · have hlast : (l ++ 10 :: rest).getLast? = rest.getLast? := by
            rw [List.getLast?_append_of_ne_nil l (List.cons_ne_nil 10 rest)]
            cases rest with
            | nil => exact absurd rfl hre
            | cons c rest => rfl
          simp [hfp, List.count_append, hc, hre, hlast]
          omega
      · subst hr
        rw [hfp]
        have hc : line.count 10 = 0 := List.count_eq_zero.mpr hl
        have hlast : line.getLast? ≠ some 10 := fun h10 => hl (List.mem_of_getLast?_eq_some h10)
        simp [hc, hne, hlast]

/-! ## Facts about schedules -/

theorem interleaving_left_nil {α : Type} (ys : List α) : Interleaving [] ys ys := by
  induction ys with
  | nil => exact .nil
  | cons y ys ih => exact .right y ih

theorem interleaving_right_nil {α : Type} (xs : List α) : Interleaving xs [] xs := by
  induction xs with
  | nil => exact .nil
  | cons x xs ih => exact .left x ih

theorem interleaving_append {α : Type} (xs ys : List α) : Interleaving xs ys (xs ++ ys) := by
  induction xs with
  | nil => exact interleaving_left_nil ys
  | cons x xs ih => exact .left x ih

/-- Every schedule produces an interleaving of the two threads. -/
theorem merge_interleaving {α : Type} (sched : List Bool) (xs ys : List α) :
    Interleaving xs ys (merge sched xs ys) := by
  induction sched generalizing xs ys with
  | nil => simpa [merge] using interleaving_append xs ys
  | cons b sched ih =>
    cases xs with
    | nil => simpa [merge] using interleaving_left_nil ys
    | cons x xs =>
      cases ys with
      | nil => simpa [merge] using interleaving_right_nil (x :: xs)
      | cons y ys =>
        cases b with
        | true => simpa [merge] using Interleaving.left x (ih xs (y :: ys))
        | false => simpa [merge] using Interleaving.right y (ih (x :: xs) ys)

/-- Every interleaving of the two threads is produced by some schedule. -/
theorem interleaving_merge {α : Type} (xs ys zs : List α) (h : Interleaving xs ys zs) :
    ∃ sched, merge sched xs ys = zs := by
  induction h with
  | nil => exact ⟨[], rfl⟩
  | @left x xs ys zs _ ih =>
    obtain ⟨sched, hs⟩ := ih
    cases ys with
    | nil =>
      refine ⟨[true], ?_⟩
      have : zs = xs := by
        rw [← hs]
        cases sched <;> cases xs <;> simp [merge]
      simp [merge, this]
    | cons y ys => exact ⟨true :: sched, by simp [merge, hs]⟩
  | @right y xs ys zs _ ih =>
    obtain ⟨sched, hs⟩ := ih
    cases xs with
    | nil =>
      refine ⟨[true], ?_⟩
      have : zs = ys := by
        rw [← hs]
        cases sched <;> cases ys <;> simp [merge]
      simp [merge, this]
    | cons x xs => exact ⟨false :: sched, by simp [merge, hs]⟩

theorem interleaving_mem {α : Type} (xs ys zs : List α) (h : Interleaving xs ys zs) (z : α) :
    z ∈ zs ↔ z ∈ xs ∨ z ∈ ys := by
  induction h with
  | nil => simp
  | left x _ ih => simp [ih, or_assoc]
  | right y _ ih => simp [ih, or_left_comm]

theorem mem_merge {α : Type} (sched : List Bool) (xs ys : List α) (z : α) :
    z ∈ merge sched xs ys ↔ z ∈ xs ∨ z ∈ ys :=
  interleaving_mem xs ys _ (merge_interleaving sched xs ys) z

theorem interleaving_length {α : Type} (xs ys zs : List α) (h : Interleaving xs ys zs) :
    zs.length = xs.length + ys.length := by
  induction h with
  | nil => rfl
  | left x _ ih => simp [ih]; omega
  | right y _ ih => simp [ih]; omega

/-! ## Facts about the supervisor's messages -/

theorem cmd_fold_buf (args : List Str) (ss : OStream) (h : ss.width = 0) :
    (args.foldl (fun (ss : OStream) arg => (ss.put_char 32).put_str arg) ss).buf =
      ss.buf ++ args.flatMap (fun arg => 32 :: arg) := by
  induction args generalizing ss with
  | nil => simp
  | cons a args ih =>
    rw [List.foldl_cons, ih ((ss.put_char 32).put_str a) rfl]
    simp [OStream.put_str, OStream.put_char, OStream.put, OStream.padding, h]

/-- Closed form of the first message: the prefix `CMD: `, then every argument
preceded by one space. -/
theorem cmd_message_eq (args : List Str) :
    cmd_message args = lit "CMD: " ++ args.flatMap (fun arg => 32 :: arg) := by
  unfold cmd_message
  rw [cmd_fold_buf args (OStream.new.put_str (lit "CMD: ")) rfl]
  rfl

/-! ## Facts about decimal output -/

theorem digitChar_decimal (d : Nat) (h : d < 10) :
    48 ≤ (Nat.digitChar d).toNat ∧ (Nat.digitChar d).toNat ≤ 57 := by
  interval_cases d <;> decide

theorem toDigitsCore_decimal (fuel n : Nat) (ds : List Char)
    (h : ∀ c ∈ ds, 48 ≤ c.toNat ∧ c.toNat ≤ 57) :
    ∀ c ∈ Nat.toDigitsCore 10 fuel n ds, 48 ≤ c.toNat ∧ c.toNat ≤ 57 := by
  induction fuel generalizing n ds with
  | zero => simpa [Nat.toDigitsCore] using h
  | succ fuel ih =>
    have hd := digitChar_decimal (n % 10) (Nat.mod_lt _ (by norm_num))
    have hds : ∀ c ∈ Nat.digitChar (n % 10) :: ds, 48 ≤ c.toNat ∧ c.toNat ≤ 57 := by
      intro c hc
      rcases List.mem_cons.mp hc with rfl | hc
      · exact hd
      · exact h c hc
    rw [Nat.toDigitsCore]
    split_ifs
    · exact hds
    · exact ih _ _ hds

/-- The decimal digits of a natural number are ASCII digits. -/
theorem digits_decimal (n : Nat) : ∀ b ∈ digits 10 n, 48 ≤ b.val ∧ b.val ≤ 57 := by
  intro b hb
  unfold digits at hb
  obtain ⟨c, hc, rfl⟩ := List.mem_map.mp hb
  have := toDigitsCore_decimal (n + 1) n [] (by simp) c hc
  simp only [Fin.ofNat, Nat.succ_eq_add_one]
  omega

/-- Text of a signed integer: ASCII digits, after a minus sign when it is negative. -/
theorem decimal_digits (i : Int) :
    ∃ ds : Str, (∀ b ∈ ds, 48 ≤ b.val ∧ b.val ≤ 57) ∧
      decimal i = if i < 0 then 45 :: ds else ds := by
  refine ⟨digits 10 i.natAbs, digits_decimal _, ?_⟩
  unfold decimal
  rfl

/-! ## Facts about the readers' records -/

theorem getline_eq_none (fp : Str) (h : getline fp = none) : fp = [] := by
  cases fp with
  | nil => rfl
  | cons b fp =>
    rw [getline] at h
    split_ifs at h
    split at h <;> simp at h

theorem read_pipe_loop_fd (self : CommandLogger) (fd_type : Str) (child_pid : Int)
    (time : Nat → Int) (fp : Str) (k : Nat) :
    ∀ r ∈ (read_pipe_loop self fd_type child_pid time k fp).syslog,
      r.fd = fd_type ∧ r.pid = child_pid := by
  generalize h : fp.length = n
  induction n using Nat.strong_induction_on generalizing fp k with
  | _ n ih =>
    cases hg : getline fp with
    | none =>
      rw [read_pipe_loop_eof _ _ _ _ _ _ hg]
      simp
    | some p =>
      obtain ⟨line, rest⟩ := p
      rw [read_pipe_loop_line _ _ _ _ _ _ _ _ hg]
      have hlt := getline_rest_length fp line rest hg
      intro r hr
      rcases List.mem_cons.mp hr with rfl | hr
      · exact ⟨rfl, rfl⟩
      · exact ih rest.length (h ▸ hlt) rest (k + 1) rfl r hr

theorem read_pipe_fd (self : CommandLogger) (fp : Option Str) (fd_type : Str) (child_pid : Int)
    (time : Nat → Int) (strerror : Str) :
    ∀ r ∈ (read_pipe self fp fd_type child_pid time strerror).syslog,
      r.fd = fd_type ∧ r.pid = child_pid := by
  cases fp with
  | none => simp [read_pipe]
  | some content =>
    intro r hr
    apply read_pipe_loop_fd self fd_type child_pid time content 0 r
    unfold read_pipe at hr
    split_ifs at hr <;> exact hr

theorem read_pipe_syslog (self : CommandLogger) (content : Str) (fd_type : Str) (child_pid : Int)
    (time : Nat → Int) (strerror : Str) :
    (read_pipe self (some content) fd_type child_pid time strerror).syslog =
      (read_pipe_loop self fd_type child_pid time 0 content).syslog := by
  unfold read_pipe
  split_ifs <;> rfl

/-- The supervisor's run in the parent process. -/
theorem execute_command_parent (self : CommandLogger) (env : Env) (args : List Str)
    (hargs : args ≠ []) (hp1 : env.pipe_stdout = true) (hp2 : env.pipe_stderr = true)
    (hf1 : env.fork ≠ -1) (hf0 : env.fork ≠ 0) :
    execute_command self env args =
      .returned (if WIFEXITED env.status then WEXITSTATUS env.status else 1)
        { syslog := log_line self (cmd_message args) (lit "meta") env.fork (env.time_main 0) ::
            merge env.sched_syslog
              (read_pipe self env.stdout_fp (lit "stdout") env.fork env.time_stdout
                env.strerror).syslog
              (read_pipe self env.stderr_fp (lit "stderr") env.fork env.time_stderr
                env.strerror).syslog ++
            [log_line self (rc_message env.status) (lit "meta") env.fork (env.time_main 1)],
          cout := (merge env.sched_cout
              (read_pipe self env.stdout_fp (lit "stdout") env.fork env.time_stdout
                env.strerror).cout
              (read_pipe self env.stderr_fp (lit "stderr") env.fork env.time_stderr
                env.strerror).cout).flatten,
          cerr := (merge env.sched_cerr
              (read_pipe self env.stdout_fp (lit "stdout") env.fork env.time_stdout
                env.strerror).cerr
              (read_pipe self env.stderr_fp (lit "stderr") env.fork env.time_stderr
                env.strerror).cerr).flatten,
          pipes := 2, children := 1 } := by
  unfold execute_command
  have he : args.isEmpty = false := by
    cases args with
    | nil => exact absurd rfl hargs
    | cons a args => rfl
  simp [he, hp1, hp2, hf1, hf0]

/-- The exit code computed from the wait status of a terminated child. -/
theorem exit_code_of_wait_status (t : Termination) (h : t.valid) :
    (if WIFEXITED (wait_status t) then WEXITSTATUS (wait_status t) else 1) = t.exit_code := by
  cases t with
  | exited code =>
    simp only [wait_status, WIFEXITED, WEXITSTATUS, Termination.exit_code]
    have h1 : (code % 256 * 256) % 128 = 0 := by omega
    have h2 : (code % 256 * 256) % 65536 / 256 = code % 256 := by omega
    simp [h1, h2]
  | signaled sig core =>
    obtain ⟨h1, h2⟩ := h
    have hw : WIFEXITED (wait_status (.signaled sig core)) = false := by
      unfold WIFEXITED wait_status
      rw [beq_eq_false_iff_ne]
      cases core
      · simp only [Bool.false_eq_true, if_false]
        omega
      · simp only [if_true]
        omega
    simp [hw, Termination.exit_code]

theorem flatMap_space_eq_intercalate (args : List Str) (h : args ≠ []) :
    args.flatMap (fun arg => (32 : Byte) :: arg) = 32 :: (lit " ").intercalate args := by
  induction args with
  | nil => exact absurd rfl h
  | cons a args ih =>
    cases args with
    | nil => simp [List.intercalate]
    | cons b args =>
      have := ih (List.cons_ne_nil _ _)
      rw [List.flatMap_cons, this]
      have hs : lit " " = [32] := by decide
      simp [List.intercalate, hs]

/-! ## Exit code (C1) -/

/-- C1: when the spawn succeeds and `waitpid` reports the status of a terminated
child, `execute_command` returns the child's own exit code, a value in [0,255], if
the child exited normally, and 1 if it was killed by a signal; a child that exits
with 127 has wait status 32512 and yields 127. -/
theorem execute_command_exit_code (self : CommandLogger) (env : Env) (args : List Str)
    (t : Termination) (hargs : args ≠ []) (hp1 : env.pipe_stdout = true)
    (hp2 : env.pipe_stderr = true) (hf1 : env.fork ≠ -1) (hf0 : env.fork ≠ 0)
    (hvalid : t.valid) (hstatus : env.status = wait_status t) :
    (∃ w, execute_command self env args = .returned t.exit_code w) ∧
    0 ≤ t.exit_code ∧ t.exit_code ≤ 255 ∧
    (∀ code, 0 ≤ code → code ≤ 255 → t = .exited code → t.exit_code = code) ∧
    (∀ sig core, t = .signaled sig core → t.exit_code = 1) ∧
    wait_status (.exited 127) = 32512 ∧ (Termination.exited 127).exit_code = 127 := by
  refine ⟨?_, ?_, ?_, ?_, ?_, by decide, by decide⟩
  · rw [execute_command_parent self env args hargs hp1 hp2 hf1 hf0, hstatus,
      exit_code_of_wait_status t hvalid]
    exact ⟨_, rfl⟩
  · cases t with
    | exited code => simp only [Termination.exit_code]; omega
    | signaled sig core => simp [Termination.exit_code]
  · cases t with
    | exited code => simp only [Termination.exit_code]; omega
    | signaled sig core => simp [Termination.exit_code]
  · intro code h0 h255 ht
    subst ht
    simp only [Termination.exit_code]
    omega
  · intro sig core ht
    subst ht
    rfl

/-- C1 at a child that cannot be executed and exits with 127. -/
theorem execute_command_exit_code_witness :
    [lit "nonexistent-binary-xyz"] ≠ [] ∧ (demo_env 32512).pipe_stdout = true ∧
    (demo_env 32512).pipe_stderr = true ∧ (demo_env 32512).fork ≠ -1 ∧
    (demo_env 32512).fork ≠ 0 ∧ (Termination.exited 127).valid ∧
    (demo_env 32512).status = wait_status (.exited 127) ∧
    ∃ w, execute_command demo_logger (demo_env 32512) [lit "nonexistent-binary-xyz"] =
      .returned 127 w :=
  ⟨by decide, rfl, rfl, by decide, by decide, trivial, by decide,
    (execute_command_exit_code demo_logger (demo_env 32512) [lit "nonexistent-binary-xyz"]
      (.exited 127) (by decide) rfl rfl (by decide) (by decide) trivial (by decide)).1⟩

/-! ## Escaping (C2, C3, C10) -/

/-- Where the source and the specified rule agree on a byte: everywhere but on the
bytes outside [32,126] that have no two-character escape. -/
theorem escape_json_byte_eq_spec_iff : ∀ c : Byte,
    escape_json_byte c = escape_json_byte_spec c ↔
      ((32 ≤ c.val ∧ c.val ≤ 126) ∨ c = 8 ∨ c = 9 ∨ c = 10 ∨ c = 12 ∨ c = 13) := by
  decide

/-- Inserting the byte as an integer, with the manipulators of the source, gives
the four hexadecimal digits of the specified rule. -/
theorem put_int_hex_eq_spec : ∀ c : Byte,
    ((((OStream.new.set_hex).setw 4).setfill 48).put_int (c.val : Int)).buf =
      [48, 48, hex_digit (c.val / 16), hex_digit (c.val % 16)] := by
  decide

/-- On strings made of printable ASCII and the five control characters with a
two-character escape, the source follows the specified rule. -/
theorem escape_json_string_eq_spec (s : Str)
    (h : ∀ c ∈ s, (32 ≤ c.val ∧ c.val ≤ 126) ∨ c = 8 ∨ c = 9 ∨ c = 10 ∨ c = 12 ∨ c = 13) :
    escape_json_string s = escape_json_string_spec s := by
  rw [escape_json_string_eq]
  unfold escape_json_string_spec
  induction s with
  | nil => rfl
  | cons c s ih =>
    rw [List.flatMap_cons, List.flatMap_cons, ih (fun x hx => h x (List.mem_cons_of_mem _ hx)),
      (escape_json_byte_eq_spec_iff c).mpr (h c (List.mem_cons_self _ _))]

theorem escape_json_byte_spec_all : ∀ c : Byte,
    (escape_json_byte_spec c).all (fun b => decide (32 ≤ b.val) && decide (b.val ≤ 126)) = true := by
  decide

theorem escape_json_byte_spec_printable (c : Byte) :
    ∀ b ∈ escape_json_byte_spec c, 32 ≤ b.val ∧ b.val ≤ 126 := by
  intro b hb
  have h := List.all_eq_true.mp (escape_json_byte_spec_all c) b hb
  simpa using h

/-- The specified rule never leaves a byte outside [32,126] in its output. -/
theorem escape_json_string_spec_printable (s : Str) :
    ∀ b ∈ escape_json_string_spec s, 32 ≤ b.val ∧ b.val ≤ 126 := by
  intro b hb
  obtain ⟨c, _, hm⟩ := List.mem_flatMap.mp hb
  exact escape_json_byte_spec_printable c b hm

/-- C2: the source departs from the specified rule on the bytes outside [32,126]
that have no two-character escape. For byte 0x01 it produces the six bytes
`\u000` and a raw 0x01 where the rule asks for `\u0001`, and for byte 0x7f it
produces `\u000` and a raw 0x7f where the rule asks for `\u007f`. -/
theorem escape_json_string_control_byte :
    escape_json_string [1] = lit "\\u000" ++ [1] ∧
    escape_json_string_spec [1] = lit "\\u0001" ∧
    escape_json_string [1] ≠ escape_json_string_spec [1] ∧
    escape_json_string [127] = lit "\\u000" ++ [127] ∧
    escape_json_string_spec [127] = lit "\\u007f" ∧
    escape_json_string [127] ≠ escape_json_string_spec [127] := by
  decide

/-- C3: the output of `escape_json_string` can hold a raw control character: for
the input byte 0x01 the output contains the byte 0x01, which is outside [32,126],
and so does the text handed to `syslog` for a line holding that byte. -/
theorem escape_json_string_raw_byte :
    (1 : Byte) ∈ escape_json_string [1] ∧
    ¬ (∀ b ∈ escape_json_string [1], 32 ≤ b.val ∧ b.val ≤ 126) ∧
    (1 : Byte) ∈ (log_line demo_logger [1] (lit "stdout") 4242 1700000000).syslog_text := by
  decide

/-- C10: `escape_json_string` is injective: two byte strings with the same escaped
form are equal. -/
theorem escape_json_string_injective (s t : Str)
    (h : escape_json_string s = escape_json_string t) : s = t := by
  rw [escape_json_string_eq, escape_json_string_eq] at h
  exact flatMap_escape_injective s t h

/-- C10 at a string holding a quote, a control byte and a non-ASCII byte. -/
theorem escape_json_string_injective_witness :
    escape_json_string [97, 34, 1, 200] = escape_json_string (lit "a\"" ++ [1, 200]) ∧
    ([97, 34, 1, 200] : Str) = lit "a\"" ++ [1, 200] :=
  ⟨by decide, escape_json_string_injective [97, 34, 1, 200] (lit "a\"" ++ [1, 200]) (by decide)⟩

/-! ## Stream drainer (C4, C5) -/

/-- What `read_pipe` does on a stream of newline-terminated lines followed by
data without a newline. -/
theorem read_pipe_stream (self : CommandLogger) (fd_type : Str) (child_pid : Int)
    (time : Nat → Int) (strerror : Str) (lines : List Str) (tail : Str)
    (hl : ∀ l ∈ lines, (10 : Byte) ∉ l) (ht : (10 : Byte) ∉ tail) :
    read_pipe self (some (stream_of lines tail)) fd_type child_pid time strerror =
      { syslog := ((lines_seen lines tail).enumFrom 0).map
          (fun p => log_line self (c_str p.2) fd_type child_pid (time p.1)),
        cout := if fd_type = lit "stdout" then
            (lines_seen lines tail).flatMap (fun l => [c_str l, lit "\n"]) else [],
        cerr := if fd_type = lit "stdout" then [] else
            (lines_seen lines tail).flatMap (fun l => [c_str l, lit "\n"]) } := by
  unfold read_pipe
  simp only [read_pipe_loop_stream self fd_type child_pid time lines tail hl ht 0]
  split_ifs <;> rfl

theorem flatten_echo (lines : List Str) :
    (lines.flatMap (fun l => [c_str l, lit "\n"])).flatten =
      lines.flatMap (fun l => c_str l ++ lit "\n") := by
  induction lines with
  | nil => rfl
  | cons l lines ih =>
    simp only [List.flatMap_cons, List.flatten_append, ih]
    simp

/-- C4, as stated, fails on a line that holds a NUL byte: for the child output
`a NUL b newline` on stdout the record's message is `a`, not `a NUL b`, and the
echo is `a newline`. -/
theorem read_pipe_nul_line :
    ((read_pipe demo_logger (some [97, 0, 98, 10]) (lit "stdout") 4242 (fun _ => 0) []).syslog.map
      (fun r => r.message) = [[97]]) ∧
    (read_pipe demo_logger (some [97, 0, 98, 10]) (lit "stdout") 4242 (fun _ => 0) []).cout.flatten
      = [97, 10] ∧
    ¬ ((read_pipe demo_logger (some [97, 0, 98, 10]) (lit "stdout") 4242 (fun _ => 0)
        []).syslog.map (fun r => r.message) = [[97, 0, 98]] ∧
      (read_pipe demo_logger (some [97, 0, 98, 10]) (lit "stdout") 4242 (fun _ => 0)
        []).cout.flatten = [97, 0, 98, 10]) := by
  have hs : ([97, 0, 98, 10] : Str) = stream_of [[97, 0, 98]] [] := by decide
  rw [hs, read_pipe_stream demo_logger (lit "stdout") 4242 (fun _ => 0) [] [[97, 0, 98]] []
    (by decide) (by decide)]
  decide

/-- C4 (amended): for every sequence of lines that the child writes to one stream,
each followed by a newline, `read_pipe` with the tag of that stream logs one record
per line, in order, with that tag, the child's pid and as message the content of
the line read as a C string (the whole content when the line holds no NUL byte,
the bytes before the first NUL otherwise), and echoes that same text followed by
a newline on the matching local stream and nothing on the other one. -/
theorem read_pipe_lines (self : CommandLogger) (child_pid : Int) (time : Nat → Int)
    (strerror : Str) (lines : List Str) (hl : ∀ l ∈ lines, (10 : Byte) ∉ l) :
    ((read_pipe self (some (lines.flatMap (fun l => l ++ lit "\n"))) (lit "stdout") child_pid time
        strerror).syslog =
      (lines.enumFrom 0).map
        (fun p => log_line self (c_str p.2) (lit "stdout") child_pid (time p.1))) ∧
    ((read_pipe self (some (lines.flatMap (fun l => l ++ lit "\n"))) (lit "stdout") child_pid time
        strerror).cout.flatten = lines.flatMap (fun l => c_str l ++ lit "\n")) ∧
    ((read_pipe self (some (lines.flatMap (fun l => l ++ lit "\n"))) (lit "stdout") child_pid time
        strerror).cerr = []) ∧
    ((read_pipe self (some (lines.flatMap (fun l => l ++ lit "\n"))) (lit "stderr") child_pid time
        strerror).syslog =
      (lines.enumFrom 0).map
        (fun p => log_line self (c_str p.2) (lit "stderr") child_pid (time p.1))) ∧
    ((read_pipe self (some (lines.flatMap (fun l => l ++ lit "\n"))) (lit "stderr") child_pid time
        strerror).cerr.flatten = lines.flatMap (fun l => c_str l ++ lit "\n")) ∧
    ((read_pipe self (some (lines.flatMap (fun l => l ++ lit "\n"))) (lit "stderr") child_pid time
        strerror).cout = []) ∧
    (∀ l ∈ lines, (0 : Byte) ∉ l → c_str l = l) := by
  have hs : lines.flatMap (fun l => l ++ lit "\n") = stream_of lines [] := by simp [stream_of]
  have hne : lit "stderr" ≠ lit "stdout" := by decide
  rw [hs, read_pipe_stream self (lit "stdout") child_pid time strerror lines [] hl (by simp),
    read_pipe_stream self (lit "stderr") child_pid time strerror lines [] hl (by simp)]
  simp only [lines_seen, if_true, if_neg hne, flatten_echo, true_and]
  exact fun l _ h0 => c_str_of_no_nul l h0

/-- C4 (amended) at the child output `a newline b newline`: two records with
messages `a` and `b`, and the same two lines on the local stream. -/
theorem read_pipe_lines_witness :
    (∀ l ∈ [lit "a", lit "b"], (10 : Byte) ∉ l) ∧
    (read_pipe demo_logger (some ([lit "a", lit "b"].flatMap (fun l => l ++ lit "\n")))
        (lit "stdout") 4242 (fun _ => 0) []).syslog =
      ([lit "a", lit "b"].enumFrom 0).map
        (fun p => log_line demo_logger (c_str p.2) (lit "stdout") 4242 0) ∧
    (read_pipe demo_logger (some ([lit "a", lit "b"].flatMap (fun l => l ++ lit "\n")))
        (lit "stdout") 4242 (fun _ => 0) []).cout.flatten =
      [lit "a", lit "b"].flatMap (fun l => c_str l ++ lit "\n") :=
  ⟨by decide,
    (read_pipe_lines demo_logger 4242 (fun _ => 0) [] [lit "a", lit "b"] (by decide)).1,
    (read_pipe_lines demo_logger 4242 (fun _ => 0) [] [lit "a", lit "b"] (by decide)).2.1⟩

/-- C5, as stated, fails on data without a final newline: the stream `a` holds no
newline byte and `read_pipe` logs one record for it. -/
theorem read_pipe_unterminated :
    (read_pipe demo_logger (some [97]) (lit "stdout") 4242 (fun _ => 0) []).syslog.length = 1 ∧
    ([97] : Str).count 10 = 0 ∧
    (read_pipe demo_logger (some [97]) (lit "stdout") 4242 (fun _ => 0) []).syslog.length ≠
      ([97] : Str).count 10 := by
  rw [read_pipe_syslog, read_pipe_loop_count]
  decide

/-- C5 (amended): for every byte stream delivered by the pipe, the number of
records `read_pipe` logs is the number of newline bytes of the stream, plus one
when the stream is not empty and does not end in a newline. -/
theorem read_pipe_record_count (self : CommandLogger) (fd_type : Str) (child_pid : Int)
    (time : Nat → Int) (strerror : Str) (fp : Str) :
    (read_pipe self (some fp) fd_type child_pid time strerror).syslog.length =
      fp.count 10 + (if fp ≠ [] ∧ fp.getLast? ≠ some 10 then 1 else 0) := by
  rw [read_pipe_syslog, read_pipe_loop_count]

/-! ## Record format (C6) -/

/-- The serialized record, piece by piece. -/
theorem LogRecord.json_eq (r : LogRecord) :
    r.json =
      lit "\x7b\"user\":\"" ++ escape_json_string r.user ++
      lit "\",\"pid\":" ++ decimal r.pid ++
      lit ",\"tty\":\"" ++ escape_json_string r.tty ++
      lit "\",\"fd\":\"" ++ r.fd ++
      lit "\",\"host\":\"" ++ escape_json_string r.host ++
      lit "\",\"message\":\"" ++ escape_json_string r.message ++
      lit "\",\"timestamp\":" ++ decimal r.timestamp ++ lit "\x7d" := by
  simp only [LogRecord.json, LogRecord.stream, OStream.put_str, OStream.put_int,
    OStream.put_long, OStream.put_integer, OStream.put, OStream.padding, OStream.new,
    Nat.zero_sub, List.replicate_zero, List.append_nil, List.nil_append, List.append_assoc,
    Bool.false_eq_true, if_false]
  rfl

theorem escape_json_byte_no_nul : ∀ c : Byte, c ≠ 0 → (0 : Byte) ∉ escape_json_byte c := by
  decide

theorem escape_json_string_no_nul (s : Str) (h : (0 : Byte) ∉ s) :
    (0 : Byte) ∉ escape_json_string s := by
  rw [escape_json_string_eq]
  intro h0
  obtain ⟨c, hc, hm⟩ := List.mem_flatMap.mp h0
  exact escape_json_byte_no_nul c (fun hc0 => h (hc0 ▸ hc)) hm

theorem decimal_no_nul (i : Int) : (0 : Byte) ∉ decimal i := by
  obtain ⟨ds, hds, he⟩ := decimal_digits i
  have hz : (0 : Byte) ∉ ds := fun h0 => by
    have := (hds 0 h0).1
    simp at this
  rw [he]
  split_ifs
  · simp only [List.mem_cons, not_or]
    exact ⟨by decide, hz⟩
  · exact hz

/-- A record whose strings hold no NUL byte reaches the log whole: the C string
handed to `syslog` is the serialized record. -/
theorem LogRecord.syslog_text_eq_json (r : LogRecord) (hu : (0 : Byte) ∉ r.user)
    (ht : (0 : Byte) ∉ r.tty) (hf : (0 : Byte) ∉ r.fd) (hh : (0 : Byte) ∉ r.host)
    (hm : (0 : Byte) ∉ r.message) : r.syslog_text = r.json := by
  apply c_str_of_no_nul
  rw [LogRecord.json_eq]
  simp only [List.mem_append, not_or]
  exact ⟨⟨⟨⟨⟨⟨⟨⟨⟨⟨⟨⟨⟨⟨by decide, escape_json_string_no_nul _ hu⟩, by decide⟩,
    decimal_no_nul _⟩, by decide⟩, escape_json_string_no_nul _ ht⟩, by decide⟩, hf⟩,
    by decide⟩, escape_json_string_no_nul _ hh⟩, by decide⟩, escape_json_string_no_nul _ hm⟩,
    by decide⟩, decimal_no_nul _⟩, by decide⟩

/-- C6: `log_line` serializes exactly the flat object with the seven keys `user`,
`pid`, `tty`, `fd`, `host`, `message`, `timestamp` in that order, where the user,
tty, host and message are passed through `escape_json_string`, the stream tag is
inserted as it is, and the pid and the timestamp are unquoted decimal integers
(ASCII digits, after a minus sign when negative). -/
theorem log_line_json (self : CommandLogger) (line fd_type : Str) (child_pid now : Int) :
    (log_line self line fd_type child_pid now).json =
      lit "\x7b\"user\":\"" ++ escape_json_string self.current_user ++
      lit "\",\"pid\":" ++ decimal child_pid ++
      lit ",\"tty\":\"" ++ escape_json_string self.tty_name ++
      lit "\",\"fd\":\"" ++ fd_type ++
      lit "\",\"host\":\"" ++ escape_json_string self.hostname ++
      lit "\",\"message\":\"" ++ escape_json_string line ++
      lit "\",\"timestamp\":" ++ decimal now ++ lit "\x7d" ∧
    (∃ ds : Str, (∀ b ∈ ds, 48 ≤ b.val ∧ b.val ≤ 57) ∧
      decimal child_pid = if child_pid < 0 then 45 :: ds else ds) ∧
    (∃ ds : Str, (∀ b ∈ ds, 48 ≤ b.val ∧ b.val ≤ 57) ∧
      decimal now = if now < 0 then 45 :: ds else ds) :=
  ⟨LogRecord.json_eq (log_line self line fd_type child_pid now), decimal_digits child_pid,
    decimal_digits now⟩

/-! ## Supervisor (C7, C8, C9) -/

/-- C7: in every invocation that reaches the spawn, whatever the schedule of the
two readers, the records handed to the log are the command-line record tagged
`meta`, then an interleaving of the records of the two readers, all tagged
`stdout` or `stderr`, then the exit-status record tagged `meta`: exactly two
`meta` records, the first before and the second after every other record. -/
theorem execute_command_meta_records (self : CommandLogger) (env : Env) (args : List Str)
    (hargs : args ≠ []) (hp1 : env.pipe_stdout = true) (hp2 : env.pipe_stderr = true)
    (hf1 : env.fork ≠ -1) (hf0 : env.fork ≠ 0) :
    ∃ rc w first mid last,
      execute_command self env args = .returned rc w ∧
      w.syslog = first :: mid ++ [last] ∧
      first = log_line self (cmd_message args) (lit "meta") env.fork (env.time_main 0) ∧
      last = log_line self (rc_message env.status) (lit "meta") env.fork (env.time_main 1) ∧
      Interleaving
        (read_pipe self env.stdout_fp (lit "stdout") env.fork env.time_stdout env.strerror).syslog
        (read_pipe self env.stderr_fp (lit "stderr") env.fork env.time_stderr env.strerror).syslog
        mid ∧
      (∀ r ∈ mid, r.fd = lit "stdout" ∨ r.fd = lit "stderr") ∧
      w.syslog.countP (fun r => r.fd = lit "meta") = 2 := by
  refine ⟨_, _, _, _, _, execute_command_parent self env args hargs hp1 hp2 hf1 hf0, rfl, rfl,
    rfl, merge_interleaving _ _ _, ?_, ?_⟩
  · intro r hr
    rcases (mem_merge _ _ _ r).mp hr with h | h
    · exact Or.inl (read_pipe_fd _ _ _ _ _ _ r h).1
    · exact Or.inr (read_pipe_fd _ _ _ _ _ _ r h).1
  · have hmid : (merge env.sched_syslog
        (read_pipe self env.stdout_fp (lit "stdout") env.fork env.time_stdout env.strerror).syslog
        (read_pipe self env.stderr_fp (lit "stderr") env.fork env.time_stderr
          env.strerror).syslog).countP (fun r => r.fd = lit "meta") = 0 := by
      rw [List.countP_eq_zero]
      intro r hr
      have h1 : lit "stdout" ≠ lit "meta" := by decide
      have h2 : lit "stderr" ≠ lit "meta" := by decide
      rcases (mem_merge _ _ _ r).mp hr with h | h
      · simpa [(read_pipe_fd _ _ _ _ _ _ r h).1] using h1
      · simpa [(read_pipe_fd _ _ _ _ _ _ r h).1] using h2
    simp [List.countP_cons, List.countP_append, hmid, log_line]

/-- C7 at the child that prints `a` and `b` and exits with 0. -/
theorem execute_command_meta_records_witness :
    [lit "printf", lit "%s\\n", lit "a", lit "b"] ≠ [] ∧ (demo_env 0).pipe_stdout = true ∧
    (demo_env 0).pipe_stderr = true ∧ (demo_env 0).fork ≠ -1 ∧ (demo_env 0).fork ≠ 0 ∧
    ∃ rc w first mid last,
      execute_command demo_logger (demo_env 0) [lit "printf", lit "%s\\n", lit "a", lit "b"] =
        .returned rc w ∧
      w.syslog = first :: mid ++ [last] ∧
      first = log_line demo_logger (cmd_message [lit "printf", lit "%s\\n", lit "a", lit "b"])
        (lit "meta") (demo_env 0).fork ((demo_env 0).time_main 0) ∧
      last = log_line demo_logger (rc_message (demo_env 0).status) (lit "meta") (demo_env 0).fork
        ((demo_env 0).time_main 1) ∧
      Interleaving
        (read_pipe demo_logger (demo_env 0).stdout_fp (lit "stdout") (demo_env 0).fork
          (demo_env 0).time_stdout (demo_env 0).strerror).syslog
        (read_pipe demo_logger (demo_env 0).stderr_fp (lit "stderr") (demo_env 0).fork
          (demo_env 0).time_stderr (demo_env 0).strerror).syslog
        mid ∧
      (∀ r ∈ mid, r.fd = lit "stdout" ∨ r.fd = lit "stderr") ∧
      w.syslog.countP (fun r => r.fd = lit "meta") = 2 :=
  ⟨by decide, rfl, rfl, by decide, by decide,
    execute_command_meta_records demo_logger (demo_env 0)
      [lit "printf", lit "%s\\n", lit "a", lit "b"] (by decide) rfl rfl (by decide) (by decide)⟩

/-- C8, as stated, fails: for the arguments `ls`, `-la`, `/tmp` the message of the
first record is `CMD:  ls -la /tmp`, not `ls -la /tmp`. -/
theorem execute_command_cmd_message :
    ∃ rc w first rest,
      execute_command demo_logger (demo_env 0) [lit "ls", lit "-la", lit "/tmp"] =
        .returned rc w ∧
      w.syslog = first :: rest ∧ first.message = lit "CMD:  ls -la /tmp" ∧
      first.message ≠ lit "ls -la /tmp" := by
  refine ⟨_, _, _, _, execute_command_parent demo_logger (demo_env 0) _ (by decide) rfl rfl
    (by decide) (by decide), rfl, ?_, ?_⟩ <;> decide

/-- C8 (amended): for every non-empty argument list, the first record emitted by
`execute_command` is tagged `meta`, carries the child's pid, and its message is
the prefix `CMD: ` followed by every argument in order, each preceded by one
space: `CMD: `, a space, and the arguments joined by single spaces. -/
theorem execute_command_first_record (self : CommandLogger) (env : Env) (args : List Str)
    (hargs : args ≠ []) (hp1 : env.pipe_stdout = true) (hp2 : env.pipe_stderr = true)
    (hf1 : env.fork ≠ -1) (hf0 : env.fork ≠ 0) :
    ∃ rc w first rest,
      execute_command self env args = .returned rc w ∧
      w.syslog = first :: rest ∧ first.fd = lit "meta" ∧ first.pid = env.fork ∧
      first.message = lit "CMD: " ++ args.flatMap (fun arg => 32 :: arg) ∧
      first.message = lit "CMD: " ++ lit " " ++ (lit " ").intercalate args := by
  refine ⟨_, _, _, _, execute_command_parent self env args hargs hp1 hp2 hf1 hf0, rfl, rfl, rfl,
    cmd_message_eq args, ?_⟩
  show cmd_message args = _
  rw [cmd_message_eq, flatMap_space_eq_intercalate args hargs, List.append_assoc]
  rfl

/-- C8 (amended) at the arguments `ls`, `-la`, `/tmp`. -/
theorem execute_command_first_record_witness :
    [lit "ls", lit "-la", lit "/tmp"] ≠ [] ∧ (demo_env 0).pipe_stdout = true ∧
    (demo_env 0).pipe_stderr = true ∧ (demo_env 0).fork ≠ -1 ∧ (demo_env 0).fork ≠ 0 ∧
    ∃ rc w first rest,
      execute_command demo_logger (demo_env 0) [lit "ls", lit "-la", lit "/tmp"] =
        .returned rc w ∧
      w.syslog = first :: rest ∧ first.fd = lit "meta" ∧ first.pid = (demo_env 0).fork ∧
      first.message = lit "CMD: " ++
        [lit "ls", lit "-la", lit "/tmp"].flatMap (fun arg => 32 :: arg) ∧
      first.message = lit "CMD: " ++ lit " " ++
        (lit " ").intercalate [lit "ls", lit "-la", lit "/tmp"] :=
  ⟨by decide, rfl, rfl, by decide, by decide,
    execute_command_first_record demo_logger (demo_env 0) [lit "ls", lit "-la", lit "/tmp"]
      (by decide) rfl rfl (by decide) (by decide)⟩

/-- C9: with an empty argument list `execute_command` returns 1 at once: no record
is logged, no pipe and no child process is created; only the diagnostic
`No command specified` goes to standard error. -/
theorem execute_command_no_args (self : CommandLogger) (env : Env) :
    execute_command self env [] =
      .returned 1 { syslog := [], cout := [], cerr := lit "No command specified\n",
                    pipes := 0, children := 0 } := by
  rfl

end Wrex
